import Mathlib

/-!
# Verification of the rota scheduling core

Shallow embedding of the weekly rota scheduler (`app/services/scheduler_core.py`),
the reassignment optimizer (`app/services/rota_service.py`), the travel-time
service (`app/services/travel_service.py`) and the demand estimator
(`app/services/data_processor.py`), together with proofs about the spec's
claims.

Times are absolute whole minutes (a calendar day is `t / 1440`); all string
handling is done with structural character-list functions so the definitions
evaluate by kernel reduction.
-/

namespace Rota

/-! ## String helpers (structural re-implementations of the Python string ops) -/

/-- Lower-case a string character-wise (Python `str.lower` on ASCII input). -/
def lowerStr (s : String) : String := ⟨s.data.map Char.toLower⟩

/-- Upper-case a string character-wise (Python `str.upper` on ASCII input). -/
def upperStr (s : String) : String := ⟨s.data.map Char.toUpper⟩

/-- Predicate: `hasPre n h` is true when `n` is a leading segment of `h`. -/
def hasPre : List Char → List Char → Bool
  | [], _ => true
  | _ :: _, [] => false
  | a :: as, b :: bs => a = b && hasPre as bs

/-- Predicate: `hasSub hay needle` holds when `needle` occurs contiguously inside `hay`
(Python `needle in hay`). -/
def hasSub (hay needle : List Char) : Bool :=
  match hay with
  | [] => needle.isEmpty
  | _ :: t => hasPre needle hay || hasSub t needle

/-- Python's `needle in hay` on strings. -/
def strHas (hay needle : String) : Bool := hasSub hay.data needle.data

/-- Strip leading and trailing whitespace (Python `str.strip`). -/
def trimStr (s : String) : String :=
  ⟨((s.data.dropWhile Char.isWhitespace).reverse.dropWhile Char.isWhitespace).reverse⟩

/-- Split on a single separator character, keeping empty chunks
(Python `str.split(sep)`). -/
def splitChars (sep : Char) : List Char → List (List Char)
  | [] => [[]]
  | c :: rest =>
    let r := splitChars sep rest
    if c = sep then [] :: r
    else
      match r with
      | [] => [[c]]
      | h :: t => (c :: h) :: t

/-- Python `str.split(sep)` for a one-character separator. -/
def splitStr (s : String) (sep : Char) : List String :=
  (splitChars sep s.data).map (fun l => ⟨l⟩)

/-- Whitespace-separated words, dropping empties (Python `str.split()`). -/
def wordsAux : List Char → List Char → List (List Char)
  | [], acc => if acc.isEmpty then [] else [acc.reverse]
  | c :: t, acc =>
    if Char.isWhitespace c then
      if acc.isEmpty then wordsAux t [] else acc.reverse :: wordsAux t []
    else wordsAux t (c :: acc)

/-- Python `str.split()` (split on whitespace runs). -/
def wordsOf (s : String) : List String := (wordsAux s.data []).map (fun l => ⟨l⟩)

/-- Parse a decimal numeral; `none` on the empty string or any non-digit
(mirrors the success cases of Python `int(...)` on nonnegative input). -/
def natOfChars (cs : List Char) : Option Nat :=
  if cs.isEmpty then none
  else if cs.all Char.isDigit then
    some (cs.foldl (fun n c => n * 10 + (c.toNat - 48)) 0)
  else none

/-- Parse a (trimmed) string as a natural number. -/
def strToNat (s : String) : Option Nat := natOfChars (trimStr s).data

/-- Replace every occurrence of a character (Python `str.replace(c, c')`
for one-character arguments). -/
def replChar (s : String) (a b : Char) : String :=
  ⟨s.data.map (fun c => if c = a then b else c)⟩

/-- First `n` characters (Python `s[:n]`). -/
def takeStr (s : String) (n : Nat) : String := ⟨s.data.take n⟩

/-! ## Data model (`app/models/schemas.py`) -/

/-- Translation of `QualificationEnum`. -/
inductive Qualification where
  | seniorCarer
  | carer
  | nurse
deriving DecidableEq, Repr

/-- Translation of `ServiceType`. -/
inductive ServiceType where
  | medicine
  | exercise
  | companionship
  | personalCare
deriving DecidableEq, Repr

/-- Translation of `Employee` (the fields the scheduling core reads).  `TransportMode` is the
enum's `.value` string (e.g. `"Car"`); the shift window is the raw
`"HH:MM"` strings, parsed by `parseShiftTime`. -/
structure Employee where
  EmployeeID : String
  Name : String
  Address : String
  PostCode : String
  TransportMode : String
  Qualification : Qualification
  LanguageSpoken : String
  EarliestStart : String
  LatestEnd : String
  maxPatientsPerDay : Nat := 8
deriving DecidableEq, Repr

/-- Translation of `Patient` (the fields the scheduling core reads). -/
structure Patient where
  PatientID : String
  PatientName : String
  Address : String
  PostCode : String
  RequiredSupport : String
  RequiredHoursOfSupport : Int
  LanguagePreference : String
deriving DecidableEq, Repr

/-- A persisted assignment row (`assignments` table in `app/database.py`).
`start_time`/`end_time` are absolute minutes standing for the ISO datetime
strings; the informational float `priority_score` column is omitted. -/
structure Assignment where
  id : Nat
  employee_id : String
  employee_name : String
  patient_id : String
  patient_name : String
  service_type : ServiceType
  assigned_time : Nat
  start_time : Nat
  end_time : Nat
  duration : Int
  travel_time : Nat
  reasoning : String
deriving DecidableEq, Repr

/-- The assignment store (`assignments` table), newest row last. -/
abbrev Store := List Assignment

/-- Next `AUTOINCREMENT` id: one more than the largest id present. -/
def nextId (st : Store) : Nat := (st.foldr (fun a m => max a.id m) 0) + 1

/-! ## Store predicates

The repository calls `has_overlap_for_employee`,
`has_employee_patient_assignment_on_date`, `get_employee_assignments_for_date`,
`get_assignment_by_id` and `update_assignment` on `DatabaseManager`, but
`app/database.py` as provided does not define them; they are modelled from the
spec's `AssignmentStore` / Conflict Guard contracts. -/

/-- Modelled from the spec: `Overlaps(employeeId, start, end)` /
`has_overlap_for_employee`, missing from `app/database.py`.  True if any
existing assignment for that employee has `start < otherEnd AND
end > otherStart`. -/
def hasOverlapForEmployee (st : Store) (eid : String) (s t : Nat) : Bool :=
  st.any (fun a => a.employee_id = eid ∧ s < a.end_time ∧ t > a.start_time)

/-- Modelled from the spec: `AlreadyServedToday(employeeId, patientId,
dateOfStart)` / `has_employee_patient_assignment_on_date`, missing from
`app/database.py`.  True if an assignment exists for that employee/patient
pair whose start date equals the given date. -/
def hasEmployeePatientAssignmentOnDate (st : Store) (eid pid : String) (startT : Nat) : Bool :=
  st.any (fun a =>
    a.employee_id = eid ∧ a.patient_id = pid ∧ a.start_time / 1440 = startT / 1440)

/-- Modelled from the spec: `get_employee_assignments_for_date`, missing from
`app/database.py`: the employee's assignments whose start date equals the
given date. -/
def getEmployeeAssignmentsForDate (st : Store) (eid : String) (dateT : Nat) : Store :=
  st.filter (fun a => a.employee_id = eid ∧ a.start_time / 1440 = dateT / 1440)

/-- Modelled from the spec: `GetAssignment(id) -> record, found` /
`get_assignment_by_id`, missing from `app/database.py`. -/
def getAssignmentById (st : Store) (aid : Nat) : Option Assignment :=
  st.find? (fun a => a.id = aid)

/-- Modelled from the spec: `UpdateAssignment(id, fields)` applied with the
field dict built by `_update_assignment_employee` (employee fields, travel
time, reason). -/
def updateAssignmentEmployee (st : Store) (aid : Nat) (e : Employee) (tmin : Nat) : Store :=
  st.map (fun a =>
    if a.id = aid then
      { a with
        employee_id := e.EmployeeID
        employee_name := e.Name
        travel_time := tmin
        reasoning := "Reanalyzed and reassigned to nearer available employee" }
    else a)

/-! ## Stable sorting (Python `list.sort` is a stable sort; a stable insertion
sort by the same key produces the identical list) -/

/-- Insert `a` after every element strictly smaller under `ltb` (stable). -/
def insSorted (ltb : α → α → Bool) (a : α) : List α → List α
  | [] => [a]
  | b :: t => if ltb b a then b :: insSorted ltb a t else a :: b :: t

/-- Stable insertion sort. -/
def stableSortBy (ltb : α → α → Bool) : List α → List α
  | [] => []
  | a :: t => insSorted ltb a (stableSortBy ltb t)

/-- Sort by a key into a linear order (model of Python's stable tuple sort). -/
def sortByKey {κ : Type v} [LinearOrder κ] (key : α → κ) (l : List α) : List α :=
  stableSortBy (fun a b => decide (key a < key b)) l

/-! ## Travel service (`app/services/travel_service.py`)

The embedding models the configuration without a Google Maps client (no API
key / `ExternalLookupFailure`), in which every lookup degrades to the
heuristic estimate, as the spec's travel-time contract describes. -/

/-- Translation of `TravelService._map_transport_mode`. -/
def mapTransportMode (m : String) : String :=
  let l := lowerStr m
  if l = "car" then "driving"
  else if l = "walking" then "walking"
  else if l = "bicycle" then "bicycling"
  else if l = "public transport" then "transit"
  else if l = "public_transport" then "transit"
  else if l = "bike" then "bicycling"
  else "driving"

/-- The postcode-ish chunk used by `_estimate_travel_time`: the last
whitespace token containing a digit, commas treated as spaces. -/
def pcOf (s : String) : String :=
  let parts := (wordsOf (replChar s ',' ' ')).filter (fun t => t.data.any Char.isDigit)
  (parts.getLast?.getD "").replace " " ""

/-- Translation of `TravelService._estimate_travel_time`: heuristic minutes, clamped to
`[1, 60]`. -/
def estimateTravelTime (origin destination mode : String) : Nat :=
  let base :=
    if origin = "" ∨ destination = "" then 15
    else
      let o := upperStr (trimStr origin)
      let d := upperStr (trimStr destination)
      if o = d then 0
      else
        let po := pcOf o
        let pd := pcOf d
        if po ≠ "" ∧ pd ≠ "" ∧ po = pd then 6
        else if po ≠ "" ∧ pd ≠ "" ∧ takeStr po 2 = takeStr pd 2 then 10
        else 18
  let m := mapTransportMode mode
  let base := if m = "walking" then base + 10 else if m = "bicycling" then base + 5 else base
  max 1 (min base 60)

/-- Translation of `TravelService.get_travel_time` in the client-less (heuristic)
configuration; the memoization cache is value-transparent and omitted. -/
def getTravelTime (origin destination mode : String) : Nat :=
  let apiMode := mapTransportMode mode
  let minutes := estimateTravelTime origin destination apiMode
  max 1 (min minutes 180)

/-! ## Demand estimator (`app/services/data_processor.py`) -/

/-- Translation of `DataProcessor._parse_list`. -/
def parseListStr (s : String) : List String :=
  ((splitStr s ',').map trimStr).filter (fun x => x ≠ "")

/-- Translation of `DataProcessor._parse_services`. -/
def parseServices (s : String) : List ServiceType :=
  if s = "" then []
  else
    (parseListStr s).filterMap (fun item =>
      let l := lowerStr item
      if strHas l "medicine" then some .medicine
      else if strHas l "exercise" then some .exercise
      else if strHas l "companion" then some .companionship
      else if strHas l "personal" || strHas l "care" then some .personalCare
      else none)

/-- Translation of `DataProcessor.get_default_service_duration`. -/
def defaultServiceDuration : ServiceType → Nat
  | .medicine => 30
  | .personalCare => 45
  | .exercise => 30
  | .companionship => 60

/-- Translation of `DataProcessor.derive_patient_daily_demand`. -/
def derivePatientDailyDemand (p : Patient) : Int :=
  if 0 < p.RequiredHoursOfSupport then
    max 15 ((p.RequiredHoursOfSupport * 60) / 7)
  else
    let services := parseServices p.RequiredSupport
    if services ≠ [] then
      max 60 ((services.map (fun s => (defaultServiceDuration s : Int))).sum)
    else 60

/-- Translation of `DataProcessor.get_patient_by_id` (first match wins). -/
def getPatientById (pats : List Patient) (pid : String) : Option Patient :=
  pats.find? (fun p => p.PatientID = pid)

/-! ## Scheduler core (`app/services/scheduler_core.py`) -/

/-- The travel-time lookup the router consumes: origin, destination, transport
mode.  `SchedulerCore` composes with `TravelService.get_travel_time`, kept as
an explicit parameter here. -/
abbrev TravelFn := String → String → String → Nat

/-- Parse one bound of a shift window (`SchedulerCore._parse_shift`, also
`RotaService._parse_shift_bounds`): `"HH:MM"` to minutes-of-day, with a
default on empty/invalid input (invalid hours or minutes make `dtime` raise,
which the source catches and turns into the default). -/
def parseShiftTime (t : String) (dflt : Nat) : Nat :=
  if t = "" then dflt
  else
    match splitStr (trimStr t) ':' with
    | [] => dflt
    | h :: rest =>
      let mm? := match rest with
        | [] => some 0
        | m :: _ => strToNat m
      match strToNat h, mm? with
      | some hh, some mm => if hh < 24 ∧ mm < 60 then hh * 60 + mm else dflt
      | _, _ => dflt

/-- An employee's shift window in minutes-of-day (defaults 09:00 / 17:00). -/
def shiftOf (e : Employee) : Nat × Nat :=
  (parseShiftTime e.EarliestStart 540, parseShiftTime e.LatestEnd 1020)

/-- The `f"{Address}, {PostCode}"` location string (postcode appended only
when nonempty and not already contained in the address). -/
def locOf (addr pc : String) : String :=
  if pc ≠ "" ∧ ¬ strHas addr pc then addr ++ ", " ++ pc else addr

/-- An employee's base location string. -/
def empLoc (e : Employee) : String := locOf e.Address e.PostCode

/-- A patient's location string. -/
def patLoc (p : Patient) : String := locOf p.Address p.PostCode

/-- Translation of `SchedulerCore._employee_can_serve`: medicine needs a nurse; a non-English
preferred language must occur as a substring of the employee's (lower-cased)
spoken languages. -/
def employeeCanServe (e : Employee) (p : Patient) : Bool :=
  (if strHas (lowerStr p.RequiredSupport) "medicine" then
    e.Qualification = Qualification.nurse
  else true)
  &&
  (let pref := lowerStr (trimStr
      (if p.LanguagePreference = "" then "English" else p.LanguagePreference))
   if pref ≠ "" ∧ pref ≠ "english" then strHas (lowerStr e.LanguageSpoken) pref
   else true)

/-- Translation of `SchedulerCore._infer_service_type` (the `"personal"`/`"care"` branch and
the final default coincide on `personal_care`). -/
def inferServiceType (p : Patient) : ServiceType :=
  let supports := lowerStr p.RequiredSupport
  if strHas supports "medicine" then .medicine
  else if strHas supports "exercise" then .exercise
  else if strHas supports "compan" then .companionship
  else .personalCare

/-- Translation of `getattr(employee, "max_patients_per_day", 8) or 8`: a falsy (zero) value
falls back to 8. -/
def maxVisitsOf (e : Employee) : Nat :=
  if e.maxPatientsPerDay = 0 then 8 else e.maxPatientsPerDay

/-- The per-day demand pool `patient_daily_minutes` (patients with a positive
derived daily demand; lookups default to 0). -/
def initPool (pats : List Patient) : String → Int :=
  pats.foldl (fun f p =>
    let daily := derivePatientDailyDemand p
    if 0 < daily then (fun x => if x = p.PatientID then daily else f x) else f)
    (fun _ => 0)

/-- Mutable per-employee routing state of `_generate_daily_rota`'s inner loop,
together with the shared store / demand pool / created counter. -/
structure DayState where
  store : Store
  pool : String → Int
  clock : Nat
  loc : String
  visits : Nat
  created : Nat

/-- The candidate list `(patient, travel_minutes)` of one loop iteration:
patients with remaining demand that the employee can serve, with travel time
from the current location. -/
def buildCandidates (travel : TravelFn) (pats : List Patient) (pool : String → Int)
    (e : Employee) (curLoc : String) : List (Patient × Nat) :=
  pats.filterMap (fun p =>
    if pool p.PatientID ≤ 0 then none
    else if ¬ employeeCanServe e p then none
    else some (p, travel curLoc (patLoc p) e.TransportMode))

/-- Service minutes for a visit: the default duration of the inferred service
type, capped by the patient's remaining daily demand. -/
def chooseServiceMinutes (pool : String → Int) (p : Patient) : Int :=
  min (defaultServiceDuration (inferServiceType p) : Int) (pool p.PatientID)

/-- The persisted row built by `db_manager.log_assignment` in
`_generate_daily_rota`. -/
def mkAssignment (st : Store) (e : Employee) (p : Patient) (s t : Nat)
    (sv : Int) (tv : Nat) : Assignment :=
  { id := nextId st
    employee_id := e.EmployeeID
    employee_name := e.Name
    patient_id := p.PatientID
    patient_name := p.PatientName
    service_type := inferServiceType p
    assigned_time := s
    start_time := s
    end_time := t
    duration := sv
    travel_time := tv
    reasoning := "Scheduled by core engine" }

/-- Persist a visit and advance the router state (the success tail of one
loop iteration: append row, decrement demand, move clock and location). -/
def placeVisit (st : DayState) (e : Employee) (p : Patient) (tv : Nat)
    (sv : Int) (pStart pEnd : Nat) : DayState :=
  { store := st.store ++ [mkAssignment st.store e p pStart pEnd sv tv]
    pool := fun x =>
      if x = p.PatientID then max 0 (st.pool p.PatientID - sv) else st.pool x
    clock := pEnd
    loc := patLoc p
    visits := st.visits + 1
    created := st.created + 1 }

/-- Result of one iteration of the router's `while` loop: `stop` is a `break`,
`next` is a `continue` (after a retry) or a successful placement. -/
inductive StepRes where
  | stop (st : DayState)
  | next (st : DayState)

/-- One iteration of the greedy router's loop (`_generate_daily_rota`,
lines 89-200): build and sort candidates, pick the nearest, size the visit,
shrink to the shift if needed, check overlap, check same-patient-same-day
(falling back to the second-nearest candidate), then persist or retry 5
minutes later. -/
def routeStep (travel : TravelFn) (pats : List Patient) (e : Employee)
    (shiftEnd : Nat) (st : DayState) : StepRes :=
  match sortByKey (fun c => c.2) (buildCandidates travel pats st.pool e st.loc) with
  | [] => .stop st
  | (p0, tv0) :: rest =>
    let sv0 : Int := chooseServiceMinutes st.pool p0
    let pStart0 := st.clock + tv0
    let pEnd0 := pStart0 + sv0.toNat
    let fitted : Option (Int × Nat) :=
      if shiftEnd < pEnd0 then
        let fit : Int := (shiftEnd : Int) - (pStart0 : Int)
        if fit < 15 then none else some (fit, pStart0 + fit.toNat)
      else some (sv0, pEnd0)
    match fitted with
    | none => .stop st
    | some (sv, pEnd) =>
      if hasOverlapForEmployee st.store e.EmployeeID pStart0 pEnd then
        .next { st with clock := st.clock + 5 }
      else if hasEmployeePatientAssignmentOnDate st.store e.EmployeeID
          p0.PatientID pStart0 then
        match rest.find? (fun c =>
            0 < st.pool c.1.PatientID ∧ employeeCanServe e c.1) with
        | some (p1, tv1) =>
          let sv1 : Int := chooseServiceMinutes st.pool p1
          let pStart1 := st.clock + tv1
          let pEnd1 := pStart1 + sv1.toNat
          if hasOverlapForEmployee st.store e.EmployeeID pStart1 pEnd1 then
            .next { st with clock := st.clock + 5 }
          else
            .next (placeVisit st e p1 tv1 sv1 pStart1 pEnd1)
        | none => .next { st with clock := st.clock + 5 }
      else
        .next (placeVisit st e p0 tv0 sv pStart0 pEnd)

/-- The router's `while current_time < shift_end and visits_done < max_visits`
loop, with explicit fuel; the `Bool` records that the loop reached its exit
condition before the fuel ran out. -/
def routeLoop (travel : TravelFn) (pats : List Patient) (e : Employee)
    (shiftEnd maxV : Nat) : Nat → DayState → DayState × Bool
  | 0, st => (st, false)
  | fuel + 1, st =>
    if st.clock < shiftEnd ∧ st.visits < maxV then
      match routeStep travel pats e shiftEnd st with
      | .stop st' => (st', true)
      | .next st' => routeLoop travel pats e shiftEnd maxV fuel st'
    else (st, true)

/-- Shared per-day scheduling context (store, demand pool, created counter). -/
structure DayCtx where
  store : Store
  pool : String → Int
  created : Nat

/-- One employee's day (`for employee in ...` body): parse the shift, skip
empty windows, and run the routing loop from the shift start at the
employee's base.  The fuel `(latest - earliest) + 2` exceeds the iteration
count, every iteration advancing the clock by at least one minute. -/
def runEmployeeDay (travel : TravelFn) (pats : List Patient) (day : Nat)
    (c : DayCtx) (e : Employee) : DayCtx :=
  let (earliest, latest) := shiftOf e
  if latest ≤ earliest then c
  else
    let st0 : DayState :=
      { store := c.store, pool := c.pool, clock := day * 1440 + earliest
        loc := empLoc e, visits := 0, created := c.created }
    let st1 := (routeLoop travel pats e (day * 1440 + latest) (maxVisitsOf e)
        ((latest - earliest) + 2) st0).1
    { store := st1.store, pool := st1.pool, created := st1.created }

/-- Translation of `SchedulerCore._generate_daily_rota`: fresh demand pool, then greedy
chaining for every employee in input order.  Returns the updated store and
the day's created count. -/
def generateDailyRota (travel : TravelFn) (emps : List Employee)
    (pats : List Patient) (day : Nat) (store : Store) : Store × Nat :=
  let c := emps.foldl (runEmployeeDay travel pats day)
    { store := store, pool := initPool pats, created := 0 }
  (c.store, c.created)

/-- Translation of `SchedulerCore.generate_weekly_rota` for a caller-supplied start day:
seven consecutive daily runs, summing the created counts. -/
def generateWeeklyRota (travel : TravelFn) (emps : List Employee)
    (pats : List Patient) (startDay : Nat) (store : Store) : Store × Nat :=
  (List.range 7).foldl (fun acc off =>
    let r := generateDailyRota travel emps pats (startDay + off) acc.1
    (r.1, acc.2 + r.2)) (store, 0)

/-! ## Reassignment optimizer (`app/services/rota_service.py`) -/

/-- Translation of `RotaService._in_shift`: the shift window, laid on the start's calendar
day, contains `[s, t]`. -/
def inShift (e : Employee) (s t : Nat) : Bool :=
  let es := parseShiftTime e.EarliestStart 540
  let ls := parseShiftTime e.LatestEnd 1020
  let dayBase := s / 1440 * 1440
  decide (dayBase + es ≤ s) && decide (t ≤ dayBase + ls)

/-- Translation of `RotaService._employee_same_day_assigned`. -/
def employeeSameDayAssigned (st : Store) (eid : String) (dateT : Nat) : Bool :=
  decide (0 < (getEmployeeAssignmentsForDate st eid dateT).length)

/-- Translation of `RotaService._calc_travel_minutes`. -/
def calcTravelMinutes (travel : TravelFn) (e : Employee) (p : Patient) : Nat :=
  travel (empLoc e) (patLoc p) e.TransportMode

/-- The ranking key of `_choose_best_employee_for_reassignment`:
`(-same_day, travel)` compared lexicographically (the source sorts Python
tuples; on a full key tie it would compare `Employee` objects, which is
modelled as keeping input order). -/
def reassignKey (travel : TravelFn) (st : Store) (p : Patient) (startT : Nat)
    (e : Employee) : Int ×ₗ Nat :=
  toLex
    (-(if employeeSameDayAssigned st e.EmployeeID startT then (1 : Int) else 0),
     calcTravelMinutes travel e p)

/-- Translation of `RotaService._choose_best_employee_for_reassignment`. -/
def chooseBestEmployeeForReassignment (travel : TravelFn) (st : Store)
    (cands : List Employee) (p : Patient) (startT : Nat) : Option Employee :=
  let scored := cands.map (fun e => (reassignKey travel st p startT e, e))
  match sortByKey Prod.fst scored with
  | [] => none
  | (_, e) :: _ => some e

/-- Translation of `RotaService._get_candidate_employees`: every other employee whose shift
covers the window and who has no overlapping commitment. -/
def getCandidateEmployees (emps : List Employee) (st : Store) (s t : Nat)
    (curId : String) : List Employee :=
  emps.filter (fun e =>
    decide (e.EmployeeID ≠ curId) && inShift e s t &&
      ! hasOverlapForEmployee st e.EmployeeID s t)

/-- The fallback pool of `reanalyze_assignments`: nearest non-overlapping
employee, ignoring shift bounds. -/
def fallbackPool (travel : TravelFn) (emps : List Employee) (st : Store)
    (row : Assignment) (p : Patient) : List (Nat × Employee) :=
  emps.filterMap (fun e =>
    if e.EmployeeID = row.employee_id then none
    else if hasOverlapForEmployee st e.EmployeeID row.start_time row.end_time then none
    else some (calcTravelMinutes travel e p, e))

/-- One id of `RotaService.reanalyze_assignments`: look up the row and its
patient, build the shift-respecting candidate pool, rank it, fall back to the
globally nearest non-overlapping employee, and overwrite the assignment's
employee fields (a no-op when nothing is found). -/
def reanalyzeOne (travel : TravelFn) (emps : List Employee) (pats : List Patient)
    (st : Store) (aid : Nat) : Store :=
  match getAssignmentById st aid with
  | none => st
  | some row =>
    match getPatientById pats row.patient_id with
    | none => st
    | some p =>
      let cands := getCandidateEmployees emps st row.start_time row.end_time
        row.employee_id
      let chosen :=
        match chooseBestEmployeeForReassignment travel st cands p row.start_time with
        | some e => some e
        | none =>
          match sortByKey Prod.fst (fallbackPool travel emps st row p) with
          | [] => none
          | (_, e) :: _ => some e
      match chosen with
      | none => st
      | some e => updateAssignmentEmployee st aid e (calcTravelMinutes travel e p)

/-- Translation of `RotaService.reanalyze_assignments` over a list of ids (the
`allow_time_change` flag has no effect in the source and is omitted). -/
def reanalyzeAssignments (travel : TravelFn) (emps : List Employee)
    (pats : List Patient) (st : Store) (ids : List Nat) : Store :=
  ids.foldl (reanalyzeOne travel emps pats) st

/-! ## Invariants and basic store lemmas -/

/-- Two assignment rows are compatible when, if they belong to the same
employee, their half-open time intervals are disjoint (`[s1,e1)` and
`[s2,e2)` overlap exactly when `s1 < e2 ∧ e1 > s2`). -/
def assignOk (a b : Assignment) : Prop :=
  a.employee_id = b.employee_id →
    ¬ (a.start_time < b.end_time ∧ a.end_time > b.start_time)

instance : DecidablePred fun ab : Assignment × Assignment => assignOk ab.1 ab.2 :=
  fun _ => by unfold assignOk; infer_instance

instance (a b : Assignment) : Decidable (assignOk a b) := by
  unfold assignOk; infer_instance

/-- Spec invariant 1: no two assignments of the same employee overlap. -/
def storeInv (st : Store) : Prop := st.Pairwise assignOk

instance (st : Store) : Decidable (storeInv st) := by
  unfold storeInv; infer_instance

/-- Ids are pairwise distinct (the `id INTEGER PRIMARY KEY AUTOINCREMENT`
column of the `assignments` table). -/
def nodupIds (st : Store) : Prop := (st.map (fun a => a.id)).Nodup

instance (st : Store) : Decidable (nodupIds st) := by
  unfold nodupIds; infer_instance

/-! ## Derived predicates used in claim statements -/

/-- The normalised language preference used by the eligibility filter:
`(patient.LanguagePreference or "English").strip().lower()`. -/
def prefOf (p : Patient) : String :=
  lowerStr (trimStr (if p.LanguagePreference = "" then "English" else p.LanguagePreference))

/-- A persisted row satisfies the eligibility constraints (invariants 3 and 4)
with respect to an employee and a patient from the given lists. -/
def eligiblePersisted (emps : List Employee) (pats : List Patient)
    (a : Assignment) : Prop :=
  ∃ e ∈ emps, ∃ p ∈ pats,
    a.employee_id = e.EmployeeID ∧ a.patient_id = p.PatientID ∧
    a.service_type = inferServiceType p ∧
    (a.service_type = ServiceType.medicine → e.Qualification = Qualification.nurse) ∧
    (prefOf p ≠ "" → prefOf p ≠ "english" →
      strHas (lowerStr e.LanguageSpoken) (prefOf p) = true)

/-- Total minutes of persisted visits for one patient id. -/
def durSum (st : Store) (x : String) : Int :=
  ((st.filter (fun a => a.patient_id = x)).map (fun a => a.duration)).sum

/-- The daily demand written exactly as the spec words it (claim C8):
`max(15, weekly_hours*60/7)` when a positive weekly-hours figure is present,
else the sum of the per-service defaults (medicine=30, personal-care=45,
exercise=30, companionship=60) over the listed categories floored at 60,
and 60 when no category is listed. -/
def demandSpecDefault : ServiceType → Int
  | .medicine => 30
  | .personalCare => 45
  | .exercise => 30
  | .companionship => 60

/-- Spec-worded daily demand (see `demandSpecDefault`). -/
def demandSpec (p : Patient) : Int :=
  if 0 < p.RequiredHoursOfSupport then
    max 15 (p.RequiredHoursOfSupport * 60 / 7)
  else
    if parseServices p.RequiredSupport = [] then 60
    else max 60 ((parseServices p.RequiredSupport).map demandSpecDefault).sum

/-! ## Concrete scenario fixtures (used as counterexamples and witnesses) -/

/-- An employee fixture: English-speaking car driver based at `addr`. -/
def mkEmp (eid addr es ls : String) (q : Qualification) : Employee :=
  { EmployeeID := eid, Name := eid, Address := addr, PostCode := ""
    TransportMode := "Car", Qualification := q, LanguageSpoken := "English"
    EarliestStart := es, LatestEnd := ls, maxPatientsPerDay := 8 }

/-- A patient fixture with no weekly-hours figure and English preference. -/
def mkPat (pid addr support : String) : Patient :=
  { PatientID := pid, PatientName := pid, Address := addr, PostCode := ""
    RequiredSupport := support, RequiredHoursOfSupport := 0
    LanguagePreference := "English" }

/-- Constant 10-minute travel lookup (Scenario A's stipulated travel time). -/
def travelTen : TravelFn := fun _ _ _ => 10

/-- Travel lookup by destination: 1 minute to patient address `"PA"`,
2 minutes elsewhere. -/
def travelAB : TravelFn := fun _ d _ => if d = "PA" then 1 else 2

/-- Scenario A employee: shift 09:00-17:00. -/
def scAEmp : Employee := mkEmp "E" "EA" "09:00" "17:00" .carer

/-- Employee with a short 09:00-10:00 shift. -/
def scShortEmp : Employee := mkEmp "E" "EA" "09:00" "10:00" .carer

/-- Employee with a 09:00-11:00 shift. -/
def scMidEmp : Employee := mkEmp "E" "EA" "09:00" "11:00" .carer

/-- Nurse employee for the reassignment scenarios. -/
def scNurse : Employee := mkEmp "N" "NA" "09:00" "17:00" .nurse

/-- Non-clinical employee for the reassignment scenarios. -/
def scCarer : Employee := mkEmp "M" "MA" "09:00" "17:00" .carer

/-- Exercise patient at address `"PA"` (daily demand 60). -/
def scPatA : Patient := mkPat "A" "PA" "exercise"

/-- Exercise patient at address `"PB"` (daily demand 60). -/
def scPatB : Patient := mkPat "B" "PB" "exercise"

/-- Medicine patient at address `"PP"`. -/
def scPatMed : Patient := mkPat "P" "PP" "medicine"

/-- A persisted medicine assignment of `scNurse` to `scPatMed`, 10:00-10:30 on
day 0. -/
def scMedRow : Assignment :=
  { id := 1, employee_id := "N", employee_name := "N", patient_id := "P"
    patient_name := "P", service_type := .medicine, assigned_time := 600
    start_time := 600, end_time := 630, duration := 30, travel_time := 1
    reasoning := "Scheduled by core engine" }

/-- Initial router state of `scShortEmp` on day 0 (as `runEmployeeDay` builds
it): empty store, fresh pool for `scPatA`/`scPatB`, clock at shift start. -/
def scShortState : DayState :=
  { store := [], pool := initPool [scPatA, scPatB], clock := 540
    loc := empLoc scShortEmp, visits := 0, created := 0 }

/-! ## Sorting lemmas -/

theorem mem_insSorted (ltb : α → α → Bool) (a x : α) (l : List α) :
    x ∈ insSorted ltb a l ↔ x = a ∨ x ∈ l := by
  induction l with
  | nil => simp [insSorted]
  | cons b t ih =>
    simp only [insSorted]
    split
    case isTrue => simp only [List.mem_cons, ih]; tauto
    case isFalse => simp only [List.mem_cons]

theorem mem_stableSortBy (ltb : α → α → Bool) (x : α) (l : List α) :
    x ∈ stableSortBy ltb l ↔ x ∈ l := by
  induction l with
  | nil => simp [stableSortBy]
  | cons a t ih =>
    simp only [stableSortBy, mem_insSorted, List.mem_cons, ih]

theorem stableSortBy_eq_nil_iff (ltb : α → α → Bool) (l : List α) :
    stableSortBy ltb l = [] ↔ l = [] := by
  cases l with
  | nil => simp [stableSortBy]
  | cons a t =>
    simp only [stableSortBy]
    constructor
    · intro h
      have : a ∈ insSorted ltb a (stableSortBy ltb t) := by
        rw [mem_insSorted]; exact Or.inl rfl
      rw [h] at this
      exact absurd this (List.not_mem_nil a)
    · intro h; exact absurd h (List.cons_ne_nil a t)

theorem mem_sortByKey {κ : Type v} [LinearOrder κ] (key : α → κ) (x : α) (l : List α) :
    x ∈ sortByKey key l ↔ x ∈ l := mem_stableSortBy _ x l

/-- The head of a key-sorted list carries a minimal key. -/
theorem sortByKey_head_le {κ : Type v} [LinearOrder κ] (key : α → κ) :
    ∀ (l : List α) (y : α) (t : List α), sortByKey key l = y :: t →
      ∀ x ∈ l, key y ≤ key x := by
  intro l
  induction l with
  | nil => intro y t h; simp [sortByKey, stableSortBy] at h
  | cons a l ih =>
    intro y t h x hx
    rw [sortByKey, stableSortBy] at h
    rcases hs : stableSortBy (fun a b => decide (key a < key b)) l with _ | ⟨h₀, t₀⟩
    · have hl : l = [] := (stableSortBy_eq_nil_iff _ l).mp hs
      subst hl
      rw [hs] at h
      simp only [insSorted] at h
      cases h
      simp only [List.mem_singleton] at hx
      subst hx; exact le_refl _
    · rw [hs] at h
      simp only [insSorted] at h
      by_cases hc : key h₀ < key a
      · rw [if_pos (by simpa using hc)] at h
        obtain ⟨hy, -⟩ := List.cons.inj h
        subst hy
        rcases List.mem_cons.mp hx with rfl | hx'
        · exact le_of_lt hc
        · exact ih h₀ t₀ (by rw [sortByKey, hs]) x hx'
      · rw [if_neg (by simpa using hc)] at h
        obtain ⟨hy, -⟩ := List.cons.inj h
        subst hy
        rcases List.mem_cons.mp hx with rfl | hx'
        · exact le_refl _
        · exact le_trans (not_lt.mp hc) (ih h₀ t₀ (by rw [sortByKey, hs]) x hx')

theorem sortByKey_eq_nil_iff {κ : Type v} [LinearOrder κ] (key : α → κ) (l : List α) :
    sortByKey key l = [] ↔ l = [] := stableSortBy_eq_nil_iff _ l

theorem id_lt_nextId {st : Store} {a : Assignment} (ha : a ∈ st) :
    a.id < nextId st := by
  have : a.id ≤ st.foldr (fun a m => max a.id m) 0 := by
    induction st with
    | nil => cases ha
    | cons b t ih =>
      rcases List.mem_cons.mp ha with rfl | h
      · exact le_max_left _ _
      · exact le_trans (ih h) (le_max_right _ _)
  exact Nat.lt_succ_of_le this

theorem hasOverlap_eq_false_iff {st : Store} {eid : String} {s t : Nat} :
    hasOverlapForEmployee st eid s t = false ↔
      ∀ a ∈ st, a.employee_id = eid →
        ¬ (s < a.end_time ∧ t > a.start_time) := by
  simp only [hasOverlapForEmployee, List.any_eq_false, decide_eq_true_eq]
  constructor
  · intro h a ha heid hov
    exact h a ha ⟨heid, hov.1, hov.2⟩
  · intro h a ha ⟨heid, h1, h2⟩
    exact h a ha heid ⟨h1, h2⟩

theorem storeInv_append_of_guard {st : Store} {a : Assignment}
    (hinv : storeInv st)
    (hguard : hasOverlapForEmployee st a.employee_id a.start_time a.end_time = false) :
    storeInv (st ++ [a]) := by
  rw [storeInv, List.pairwise_append]
  refine ⟨hinv, List.pairwise_singleton _ _, ?_⟩
  intro b hb a' ha'
  rcases List.mem_singleton.mp ha' with rfl
  intro heid hov
  exact (hasOverlap_eq_false_iff.mp hguard) b hb heid ⟨hov.2, hov.1⟩

theorem nodupIds_append_fresh {st : Store} {a : Assignment}
    (hnd : nodupIds st) (hfresh : a.id = nextId st) :
    nodupIds (st ++ [a]) := by
  rw [nodupIds, List.map_append, List.map_singleton, List.nodup_append]
  refine ⟨hnd, List.nodup_singleton _, ?_⟩
  intro i hi hj
  rcases List.mem_singleton.mp hj with rfl
  obtain ⟨b, hb, hid⟩ := List.mem_map.mp hi
  have hlt := id_lt_nextId hb
  rw [hid, hfresh] at hlt
  exact lt_irrefl _ hlt

theorem of_mem_buildCandidates {travel : TravelFn} {pats : List Patient}
    {pool : String → Int} {e : Employee} {curLoc : String} {p : Patient} {tv : Nat}
    (hc : (p, tv) ∈ buildCandidates travel pats pool e curLoc) :
    p ∈ pats ∧ 0 < pool p.PatientID ∧ employeeCanServe e p = true ∧
      tv = travel curLoc (patLoc p) e.TransportMode := by
  simp only [buildCandidates, List.mem_filterMap] at hc
  obtain ⟨q, hq, hsome⟩ := hc
  by_cases h1 : pool q.PatientID ≤ 0
  · rw [if_pos h1] at hsome
    exact Option.noConfusion hsome
  · rw [if_neg h1] at hsome
    by_cases h2 : employeeCanServe e q = true
    · rw [if_neg (not_not_intro h2)] at hsome
      cases Option.some.inj hsome
      exact ⟨hq, not_le.mp h1, h2, rfl⟩
    · rw [if_pos h2] at hsome
      exact Option.noConfusion hsome

theorem one_le_defaultInt (s : ServiceType) : (1 : Int) ≤ (defaultServiceDuration s : Int) := by
  cases s <;> norm_num [defaultServiceDuration]

theorem chooseServiceMinutes_bounds {pool : String → Int} {p : Patient}
    (h : 0 < pool p.PatientID) :
    1 ≤ chooseServiceMinutes pool p ∧
      chooseServiceMinutes pool p ≤ pool p.PatientID := by
  unfold chooseServiceMinutes
  exact ⟨le_min (one_le_defaultInt _) (by omega), min_le_right _ _⟩

/-- Every iteration of the router's loop body either breaks with the state
unchanged, retries five minutes later with the store and pool unchanged, or
persists one eligibility-checked, demand-capped, overlap-guarded visit. -/
theorem routeStep_cases (travel : TravelFn) (pats : List Patient) (e : Employee)
    (shiftEnd : Nat) (st : DayState) :
    routeStep travel pats e shiftEnd st = .stop st ∨
    routeStep travel pats e shiftEnd st = .next { st with clock := st.clock + 5 } ∨
    ∃ p tv sv pStart pEnd,
      routeStep travel pats e shiftEnd st =
        .next (placeVisit st e p tv sv pStart pEnd) ∧
      p ∈ pats ∧ employeeCanServe e p = true ∧ 0 < st.pool p.PatientID ∧
      1 ≤ sv ∧ sv ≤ st.pool p.PatientID ∧
      tv = travel st.loc (patLoc p) e.TransportMode ∧
      pStart = st.clock + tv ∧ pEnd = pStart + sv.toNat ∧
      hasOverlapForEmployee st.store e.EmployeeID pStart pEnd = false := by
  unfold routeStep
  rcases hsort : sortByKey (fun c => c.2) (buildCandidates travel pats st.pool e st.loc)
    with _ | ⟨⟨p0, tv0⟩, rest⟩
  · rw [hsort]
    exact Or.inl rfl
  · have hmem0 : (p0, tv0) ∈ buildCandidates travel pats st.pool e st.loc := by
      rw [← mem_sortByKey (fun c => c.2), hsort]
      exact List.mem_cons_self _ _
    obtain ⟨hp0, hpool0, hserve0, htv0⟩ := of_mem_buildCandidates hmem0
    obtain ⟨hsv0one, hsv0le⟩ := chooseServiceMinutes_bounds hpool0
    rw [hsort]
    dsimp only
    by_cases hfit : shiftEnd < st.clock + tv0 + (chooseServiceMinutes st.pool p0).toNat
    · rw [if_pos hfit]
      by_cases h15 : (shiftEnd : Int) - ((st.clock + tv0 : Nat) : Int) < 15
      · rw [if_pos h15]
        exact Or.inl rfl
      · rw [if_neg h15]
        dsimp only
        have htn : ((chooseServiceMinutes st.pool p0).toNat : Int) =
            chooseServiceMinutes st.pool p0 := Int.toNat_of_nonneg (by omega)
        have hfitle : (shiftEnd : Int) - ((st.clock + tv0 : Nat) : Int) ≤
            st.pool p0.PatientID := by omega
        by_cases hov : hasOverlapForEmployee st.store e.EmployeeID (st.clock + tv0)
            (st.clock + tv0 + ((shiftEnd : Int) - ((st.clock + tv0 : Nat) : Int)).toNat) = true
        · rw [if_pos hov]
          exact Or.inr (Or.inl rfl)
        · rw [if_neg hov]
          by_cases hsd : hasEmployeePatientAssignmentOnDate st.store e.EmployeeID
              p0.PatientID (st.clock + tv0) = true
          · rw [if_pos hsd]
            rcases hfind : rest.find? (fun c =>
                0 < st.pool c.1.PatientID ∧ employeeCanServe e c.1) with _ | ⟨p1, tv1⟩
            · rw [hfind]
              exact Or.inr (Or.inl rfl)
            · rw [hfind]
              have hmem1 : (p1, tv1) ∈ buildCandidates travel pats st.pool e st.loc := by
                rw [← mem_sortByKey (fun c => c.2), hsort]
                exact List.mem_cons_of_mem _ (List.mem_of_find?_eq_some hfind)
              obtain ⟨hp1, hpool1, hserve1, htv1⟩ := of_mem_buildCandidates hmem1
              obtain ⟨hsv1one, hsv1le⟩ := chooseServiceMinutes_bounds hpool1
              dsimp only
              by_cases hov1 : hasOverlapForEmployee st.store e.EmployeeID (st.clock + tv1)
                  (st.clock + tv1 + (chooseServiceMinutes st.pool p1).toNat) = true
              · rw [if_pos hov1]
                exact Or.inr (Or.inl rfl)
              · rw [if_neg hov1]
                exact Or.inr (Or.inr ⟨p1, tv1, chooseServiceMinutes st.pool p1, _, _,
                  rfl, hp1, hserve1, hpool1, hsv1one, hsv1le, htv1, rfl, rfl,
                  Bool.eq_false_iff.mpr hov1⟩)
          · rw [if_neg hsd]
            exact Or.inr (Or.inr ⟨p0, tv0,
              (shiftEnd : Int) - ((st.clock + tv0 : Nat) : Int), _, _,
              rfl, hp0, hserve0, hpool0, by omega, hfitle, htv0, rfl, rfl,
              Bool.eq_false_iff.mpr hov⟩)
    · rw [if_neg hfit]
      dsimp only
      by_cases hov : hasOverlapForEmployee st.store e.EmployeeID (st.clock + tv0)
          (st.clock + tv0 + (chooseServiceMinutes st.pool p0).toNat) = true
      · rw [if_pos hov]
        exact Or.inr (Or.inl rfl)
      · rw [if_neg hov]
        by_cases hsd : hasEmployeePatientAssignmentOnDate st.store e.EmployeeID
            p0.PatientID (st.clock + tv0) = true
        · rw [if_pos hsd]
          rcases hfind : rest.find? (fun c =>
              0 < st.pool c.1.PatientID ∧ employeeCanServe e c.1) with _ | ⟨p1, tv1⟩
          · rw [hfind]
            exact Or.inr (Or.inl rfl)
          · rw [hfind]
            have hmem1 : (p1, tv1) ∈ buildCandidates travel pats st.pool e st.loc := by
              rw [← mem_sortByKey (fun c => c.2), hsort]
              exact List.mem_cons_of_mem _ (List.mem_of_find?_eq_some hfind)
            obtain ⟨hp1, hpool1, hserve1, htv1⟩ := of_mem_buildCandidates hmem1
            obtain ⟨hsv1one, hsv1le⟩ := chooseServiceMinutes_bounds hpool1
            dsimp only
            by_cases hov1 : hasOverlapForEmployee st.store e.EmployeeID (st.clock + tv1)
                (st.clock + tv1 + (chooseServiceMinutes st.pool p1).toNat) = true
            · rw [if_pos hov1]
              exact Or.inr (Or.inl rfl)
            · rw [if_neg hov1]
              exact Or.inr (Or.inr ⟨p1, tv1, chooseServiceMinutes st.pool p1, _, _,
                rfl, hp1, hserve1, hpool1, hsv1one, hsv1le, htv1, rfl, rfl,
                Bool.eq_false_iff.mpr hov1⟩)
        · rw [if_neg hsd]
          exact Or.inr (Or.inr ⟨p0, tv0, chooseServiceMinutes st.pool p0, _, _,
            rfl, hp0, hserve0, hpool0, hsv0one, hsv0le, htv0, rfl, rfl,
            Bool.eq_false_iff.mpr hov⟩)

/-- Generic left-fold invariant preservation with member access. -/
theorem foldl_inv {α β : Type _} {f : β → α → β} {P : β → Prop} :
    ∀ (l : List α), (∀ x ∈ l, ∀ s, P s → P (f s x)) →
      ∀ s₀, P s₀ → P (l.foldl f s₀)
  | [], _, _, h₀ => h₀
  | x :: t, h, s₀, h₀ =>
    foldl_inv t (fun y hy => h y (List.mem_cons_of_mem x hy)) (f s₀ x)
      (h x (List.mem_cons_self x t) s₀ h₀)

theorem routeStep_stop_eq {travel : TravelFn} {pats : List Patient} {e : Employee}
    {shiftEnd : Nat} {st st' : DayState}
    (h : routeStep travel pats e shiftEnd st = .stop st') : st' = st := by
  rcases routeStep_cases travel pats e shiftEnd st with h0 | h0 | ⟨p, tv, sv, ps, pe, h0, -⟩
  · rw [h0] at h
    cases h
    rfl
  · rw [h0] at h
    cases h
  · rw [h0] at h
    cases h

theorem routeStep_next_cases {travel : TravelFn} {pats : List Patient} {e : Employee}
    {shiftEnd : Nat} {st st' : DayState}
    (h : routeStep travel pats e shiftEnd st = .next st') :
    st' = { st with clock := st.clock + 5 } ∨
    ∃ p tv sv pStart pEnd,
      st' = placeVisit st e p tv sv pStart pEnd ∧
      p ∈ pats ∧ employeeCanServe e p = true ∧ 0 < st.pool p.PatientID ∧
      1 ≤ sv ∧ sv ≤ st.pool p.PatientID ∧
      tv = travel st.loc (patLoc p) e.TransportMode ∧
      pStart = st.clock + tv ∧ pEnd = pStart + sv.toNat ∧
      hasOverlapForEmployee st.store e.EmployeeID pStart pEnd = false := by
  rcases routeStep_cases travel pats e shiftEnd st with h0 | h0 |
    ⟨p, tv, sv, ps, pe, h0, hfacts⟩
  · rw [h0] at h
    cases h
  · rw [h0] at h
    cases h
    exact Or.inl rfl
  · rw [h0] at h
    cases h
    exact Or.inr ⟨p, tv, sv, ps, pe, rfl, hfacts⟩

/-- Any property preserved across `routeStep` continuations is preserved by the
whole routing loop. -/
theorem routeLoop_inv {travel : TravelFn} {pats : List Patient} {e : Employee}
    {shiftEnd maxV : Nat} (P : DayState → Prop)
    (hstep : ∀ st st', routeStep travel pats e shiftEnd st = .next st' → P st → P st') :
    ∀ (fuel : Nat) (st : DayState), P st →
      P (routeLoop travel pats e shiftEnd maxV fuel st).1 := by
  intro fuel
  induction fuel with
  | zero => intro st h; exact h
  | succ n ih =>
    intro st h
    simp only [routeLoop]
    by_cases hc : st.clock < shiftEnd ∧ st.visits < maxV
    · rw [if_pos hc]
      rcases hr : routeStep travel pats e shiftEnd st with st' | st'
      · have := routeStep_stop_eq hr
        subst this
        exact h
      · exact ih st' (hstep st st' hr h)
    · rw [if_neg hc]
      exact h

theorem routeStep_invC1 {travel : TravelFn} {pats : List Patient} {e : Employee}
    {shiftEnd : Nat} {st st' : DayState}
    (h : routeStep travel pats e shiftEnd st = .next st')
    (hP : storeInv st.store ∧ nodupIds st.store) :
    storeInv st'.store ∧ nodupIds st'.store := by
  rcases routeStep_next_cases h with rfl | ⟨p, tv, sv, ps, pe, rfl, -, -, -, -, -, -, -, -, hov⟩
  · exact hP
  · exact ⟨storeInv_append_of_guard hP.1 hov, nodupIds_append_fresh hP.2 rfl⟩

theorem runEmployeeDay_invC1 {travel : TravelFn} {pats : List Patient} {day : Nat}
    {c : DayCtx} {e : Employee}
    (hP : storeInv c.store ∧ nodupIds c.store) :
    storeInv (runEmployeeDay travel pats day c e).store ∧
      nodupIds (runEmployeeDay travel pats day c e).store := by
  unfold runEmployeeDay
  rcases hse : shiftOf e with ⟨es, ls⟩
  dsimp only
  by_cases hsh : ls ≤ es
  · rw [if_pos hsh]
    exact hP
  · rw [if_neg hsh]
    exact routeLoop_inv (fun st => storeInv st.store ∧ nodupIds st.store)
      (fun st st' hr hp => routeStep_invC1 hr hp) _ _ hP

theorem generateDailyRota_invC1 {travel : TravelFn} {emps : List Employee}
    {pats : List Patient} {day : Nat} {store : Store}
    (hP : storeInv store ∧ nodupIds store) :
    storeInv (generateDailyRota travel emps pats day store).1 ∧
      nodupIds (generateDailyRota travel emps pats day store).1 := by
  unfold generateDailyRota
  dsimp only
  exact foldl_inv (P := fun c : DayCtx => storeInv c.store ∧ nodupIds c.store) emps
    (fun e _ c hc => runEmployeeDay_invC1 hc) _ hP

set_option maxRecDepth 4000 in
theorem generateWeeklyRota_invC1 {travel : TravelFn} {emps : List Employee}
    {pats : List Patient} {startDay : Nat} {store : Store}
    (hP : storeInv store ∧ nodupIds store) :
    storeInv (generateWeeklyRota travel emps pats startDay store).1 ∧
      nodupIds (generateWeeklyRota travel emps pats startDay store).1 := by
  have h7 : ∀ (days : List Nat) (acc : Store × Nat),
      storeInv acc.1 ∧ nodupIds acc.1 →
      storeInv (days.foldl (fun acc off =>
        let r := generateDailyRota travel emps pats (startDay + off) acc.1
        (r.1, acc.2 + r.2)) acc).1 ∧
      nodupIds (days.foldl (fun acc off =>
        let r := generateDailyRota travel emps pats (startDay + off) acc.1
        (r.1, acc.2 + r.2)) acc).1 := by
    intro days
    induction days with
    | nil => intro acc h; exact h
    | cons d t ih =>
      intro acc h
      exact ih _ (generateDailyRota_invC1 h)
  exact h7 (List.range 7) (store, 0) hP

theorem of_mem_getCandidateEmployees {emps : List Employee} {st : Store}
    {s t : Nat} {curId : String} {e : Employee}
    (h : e ∈ getCandidateEmployees emps st s t curId) :
    e ∈ emps ∧ e.EmployeeID ≠ curId ∧ inShift e s t = true ∧
      hasOverlapForEmployee st e.EmployeeID s t = false := by
  simp only [getCandidateEmployees, List.mem_filter, Bool.and_eq_true,
    decide_eq_true_eq, Bool.not_eq_true'] at h
  exact ⟨h.1, h.2.1.1, h.2.1.2, h.2.2⟩

theorem chooseBest_spec {travel : TravelFn} {st : Store} {cands : List Employee}
    {p : Patient} {startT : Nat} {e : Employee}
    (h : chooseBestEmployeeForReassignment travel st cands p startT = some e) :
    e ∈ cands ∧ ∀ e' ∈ cands,
      reassignKey travel st p startT e ≤ reassignKey travel st p startT e' := by
  unfold chooseBestEmployeeForReassignment at h
  dsimp only at h
  rcases hs : sortByKey (Prod.fst (β := Employee))
      (cands.map (fun e => (reassignKey travel st p startT e, e))) with _ | ⟨⟨k, e0⟩, tl⟩
  · rw [hs] at h
    cases h
  · rw [hs] at h
    dsimp only at h
    have heq0 : e0 = e := Option.some.inj h
    subst heq0
    have hmem : (k, e0) ∈ cands.map (fun e => (reassignKey travel st p startT e, e)) := by
      rw [← mem_sortByKey (Prod.fst (β := Employee)), hs]
      exact List.mem_cons_self _ _
    obtain ⟨e1, he1, heq⟩ := List.mem_map.mp hmem
    cases heq
    refine ⟨he1, ?_⟩
    intro e' he'
    have h2 := sortByKey_head_le (Prod.fst (β := Employee)) _ _ _ hs
      (reassignKey travel st p startT e', e')
      (List.mem_map_of_mem _ he')
    simpa using h2

theorem of_mem_fallbackPool {travel : TravelFn} {emps : List Employee} {st : Store}
    {row : Assignment} {p : Patient} {x : Nat × Employee}
    (h : x ∈ fallbackPool travel emps st row p) :
    x.2 ∈ emps ∧ x.2.EmployeeID ≠ row.employee_id ∧
      hasOverlapForEmployee st x.2.EmployeeID row.start_time row.end_time = false ∧
      x.1 = calcTravelMinutes travel x.2 p := by
  simp only [fallbackPool, List.mem_filterMap] at h
  obtain ⟨e, he, hsome⟩ := h
  by_cases h1 : e.EmployeeID = row.employee_id
  · rw [if_pos h1] at hsome
    cases hsome
  · rw [if_neg h1] at hsome
    by_cases h2 : hasOverlapForEmployee st e.EmployeeID row.start_time row.end_time = true
    · rw [if_pos h2] at hsome
      cases hsome
    · rw [if_neg h2] at hsome
      cases Option.some.inj hsome
      exact ⟨he, h1, Bool.eq_false_iff.mpr h2, rfl⟩

/-- Reanalysis of one id either leaves the store unchanged or overwrites the
row's employee with one whose window is overlap-free. -/
theorem reanalyzeOne_eq_cases (travel : TravelFn) (emps : List Employee)
    (pats : List Patient) (st : Store) (aid : Nat) :
    reanalyzeOne travel emps pats st aid = st ∨
    ∃ row p e, getAssignmentById st aid = some row ∧
      getPatientById pats row.patient_id = some p ∧
      hasOverlapForEmployee st e.EmployeeID row.start_time row.end_time = false ∧
      reanalyzeOne travel emps pats st aid =
        updateAssignmentEmployee st aid e (calcTravelMinutes travel e p) := by
  unfold reanalyzeOne
  rcases hrow : getAssignmentById st aid with _ | row
  · exact Or.inl rfl
  · dsimp only
    rcases hpat : getPatientById pats row.patient_id with _ | p
    · exact Or.inl rfl
    · dsimp only
      rcases hcb : chooseBestEmployeeForReassignment travel st
          (getCandidateEmployees emps st row.start_time row.end_time row.employee_id)
          p row.start_time with _ | e
      · dsimp only
        rcases hfb : sortByKey (Prod.fst (β := Employee))
            (fallbackPool travel emps st row p) with _ | ⟨⟨tvm, e⟩, tl⟩
        · exact Or.inl rfl
        · have hmem : (tvm, e) ∈ fallbackPool travel emps st row p := by
            rw [← mem_sortByKey (Prod.fst (β := Employee)), hfb]
            exact List.mem_cons_self _ _
          obtain ⟨-, -, hov, -⟩ := of_mem_fallbackPool hmem
          exact Or.inr ⟨row, p, e, rfl, hpat, hov, rfl⟩
      · obtain ⟨hmem, -⟩ := chooseBest_spec hcb
        obtain ⟨-, -, -, hov⟩ := of_mem_getCandidateEmployees hmem
        exact Or.inr ⟨row, p, e, rfl, hpat, hov, rfl⟩

theorem getAssignmentById_mem {st : Store} {aid : Nat} {row : Assignment}
    (h : getAssignmentById st aid = some row) : row ∈ st ∧ row.id = aid := by
  unfold getAssignmentById at h
  exact ⟨List.mem_of_find?_eq_some h, by simpa using List.find?_some h⟩

theorem updateAssignment_invC1 {st : Store} {aid : Nat} {e : Employee}
    {tmin : Nat} {row : Assignment}
    (hP : storeInv st ∧ nodupIds st)
    (hrow : getAssignmentById st aid = some row)
    (hov : hasOverlapForEmployee st e.EmployeeID row.start_time row.end_time = false) :
    storeInv (updateAssignmentEmployee st aid e tmin) ∧
      nodupIds (updateAssignmentEmployee st aid e tmin) := by
  obtain ⟨hmem, hid⟩ := getAssignmentById_mem hrow
  have hinj := List.inj_on_of_nodup_map (f := fun a : Assignment => a.id) hP.2
  constructor
  · rw [storeInv, updateAssignmentEmployee, List.pairwise_map]
    refine List.Pairwise.imp_of_mem ?_ hP.1
    intro a b ha hb hab
    by_cases haid : a.id = aid <;> by_cases hbid : b.id = aid
    · have : a = b := hinj ha hb (by rw [haid, hbid])
      subst this
      rw [if_pos haid]
      intro _ hovab
      have ha_row : a = row := hinj ha hmem (by rw [haid, hid])
      subst ha_row
      exact hab rfl hovab
    · have ha_row : a = row := hinj ha hmem (by rw [haid, hid])
      rw [if_pos haid, if_neg hbid]
      intro heid hovab
      subst ha_row
      exact hasOverlap_eq_false_iff.mp hov b hb heid.symm hovab
    · have hb_row : b = row := hinj hb hmem (by rw [hbid, hid])
      rw [if_neg haid, if_pos hbid]
      intro heid hovab
      subst hb_row
      exact hasOverlap_eq_false_iff.mp hov a ha heid ⟨hovab.2, hovab.1⟩
    · rw [if_neg haid, if_neg hbid]
      exact hab
  · have hmapid : (updateAssignmentEmployee st aid e tmin).map (fun a => a.id) =
        st.map (fun a => a.id) := by
      rw [updateAssignmentEmployee, List.map_map]
      refine List.map_congr_left ?_
      intro a _
      simp only [Function.comp]
      split <;> rfl
    rw [nodupIds, hmapid]
    exact hP.2

theorem reanalyzeOne_invC1 {travel : TravelFn} {emps : List Employee}
    {pats : List Patient} {st : Store} {aid : Nat}
    (hP : storeInv st ∧ nodupIds st) :
    storeInv (reanalyzeOne travel emps pats st aid) ∧
      nodupIds (reanalyzeOne travel emps pats st aid) := by
  rcases reanalyzeOne_eq_cases travel emps pats st aid with heq |
    ⟨row, p, e, hrow, hpat, hov, heq⟩
  · rw [heq]
    exact hP
  · rw [heq]
    exact updateAssignment_invC1 hP hrow hov

theorem reanalyzeAssignments_invC1 {travel : TravelFn} {emps : List Employee}
    {pats : List Patient} {st : Store} {ids : List Nat}
    (hP : storeInv st ∧ nodupIds st) :
    storeInv (reanalyzeAssignments travel emps pats st ids) ∧
      nodupIds (reanalyzeAssignments travel emps pats st ids) := by
  unfold reanalyzeAssignments
  exact foldl_inv (P := fun s : Store => storeInv s ∧ nodupIds s) ids
    (fun aid _ s hs => reanalyzeOne_invC1 hs) st hP

/-! ## Claim C1 -/

/-- Claim C1: Starting from a store in which no two assignments of the same
employee overlap in time (its primary-key ids being distinct, as the
`assignments` table enforces), any run of the weekly rota generator and any
run of the reassignment optimizer preserve the invariant: for every employee,
every two distinct persisted assignments have disjoint intervals, where
`[s1,e1)` and `[s2,e2)` overlap exactly when `s1 < e2 ∧ e1 > s2`
(`assignOk`/`storeInv`). -/
theorem C1_no_overlap_invariant
    (travel : TravelFn) (emps : List Employee) (pats : List Patient)
    (startDay : Nat) (ids : List Nat) (st : Store)
    (hinv : storeInv st) (hids : nodupIds st) :
    (storeInv (generateWeeklyRota travel emps pats startDay st).1 ∧
      nodupIds (generateWeeklyRota travel emps pats startDay st).1) ∧
    (storeInv (reanalyzeAssignments travel emps pats st ids) ∧
      nodupIds (reanalyzeAssignments travel emps pats st ids)) ∧
    storeInv (reanalyzeAssignments travel emps pats
      (generateWeeklyRota travel emps pats startDay st).1 ids) :=
  ⟨generateWeeklyRota_invC1 ⟨hinv, hids⟩,
   reanalyzeAssignments_invC1 ⟨hinv, hids⟩,
   (reanalyzeAssignments_invC1 (generateWeeklyRota_invC1 ⟨hinv, hids⟩)).1⟩

/-- Witness for C1 at a concrete input: the empty store is overlap-free and
remains so through a weekly run followed by a reanalysis. -/
theorem C1_no_overlap_invariant_witness :
    storeInv ([] : Store) ∧ nodupIds ([] : Store) ∧
      storeInv (reanalyzeAssignments travelTen [scAEmp] [scPatA]
        (generateWeeklyRota travelTen [scAEmp] [scPatA] 0 []).1 [1]) :=
  ⟨by decide, by decide,
    (C1_no_overlap_invariant travelTen [scAEmp] [scPatA] 0 [1] []
      (by decide) (by decide)).2.2⟩

/-! ## Claim C2 -/

/-- Claim C2 (evaluation at the failing input): one employee with shift
09:00-11:00 and two exercise patients with 60-minute daily demand; the
second-candidate branch, which skips the served-today re-check, persists two
same-day visits pairing employee `"E"` with patient `"B"`. -/
theorem C2_same_day_pair_duplicated :
    ((generateDailyRota travelAB [scMidEmp] [scPatA, scPatB] 0 []).1.map
      (fun a => (a.employee_id, a.patient_id, a.start_time))) =
        [("E", "A", 541), ("E", "B", 573), ("E", "B", 605)] ∧
    ((generateDailyRota travelAB [scMidEmp] [scPatA, scPatB] 0 []).1.filter
      (fun a => a.employee_id = "E" ∧ a.patient_id = "B" ∧
        a.start_time / 1440 = 0)).length = 2 := by
  exact ⟨by decide, by decide⟩

/-! ## Claim C4 -/

/-- Claim C4 (evaluation at the failing input): with shift 09:00-10:00, the
second-candidate branch persists a visit 09:33-10:03 whose end exceeds the
shift end 10:00 without being shrunk, violating shift containment. -/
theorem C4_end_exceeds_shift_end :
    ((generateDailyRota travelAB [scShortEmp] [scPatA, scPatB] 0 []).1.map
      (fun a => (a.patient_id, a.start_time, a.end_time, a.duration))) =
        [("A", 541, 571, 30), ("B", 573, 603, 30)] ∧
    parseShiftTime scShortEmp.LatestEnd 1020 = 600 ∧
    ∃ a ∈ (generateDailyRota travelAB [scShortEmp] [scPatA, scPatB] 0 []).1,
      600 < a.end_time := by
  exact ⟨by decide, by decide, by decide⟩

/-! ## Claim C5 -/

/-- Claim C5 (counterexample): in Scenario A (shift 09:00-17:00, one 60-minute
exercise patient, 10-minute travel) the first and only visit of the day runs
09:10-09:40 — it does not end at 10:10, because the placed duration is
`min(default 30 for exercise, remaining 60) = 30`. -/
theorem C5_counterexample :
    ((generateDailyRota travelTen [scAEmp] [scPatA] 0 []).1.map
      (fun a => (a.start_time, a.end_time))) = [(550, 580)] ∧
    (580 : Nat) ≠ 630 := by
  exact ⟨by decide, by decide⟩

/-- Claim C5 (amended): the first visit starts at 09:10 and ends at 09:40, the
service duration being the exercise default 30 capped by the remaining
demand 60. -/
theorem C5_first_visit_times :
    ((generateDailyRota travelTen [scAEmp] [scPatA] 0 []).1.map
      (fun a => (a.start_time, a.end_time))) = [(9*60+10, 9*60+40)] ∧
    derivePatientDailyDemand scPatA = 60 ∧
    defaultServiceDuration (inferServiceType scPatA) = 30 := by
  exact ⟨by decide, by decide, by decide⟩

/-! ## Claim C10 -/

theorem routeStep_advance {travel : TravelFn} {pats : List Patient} {e : Employee}
    {shiftEnd : Nat} {st st' : DayState}
    (htr : ∀ o d m, 1 ≤ travel o d m)
    (h : routeStep travel pats e shiftEnd st = .next st') :
    st.clock + 2 ≤ st'.clock ∧ (st'.store = st.store → st'.clock = st.clock + 5) := by
  rcases routeStep_next_cases h with rfl |
    ⟨p, tv, sv, ps, pe, rfl, -, -, -, hsv1, -, htv, hps, hpe, -⟩
  · refine ⟨?_, fun _ => rfl⟩
    show st.clock + 2 ≤ st.clock + 5
    omega
  · have h1 : 1 ≤ tv := htv ▸ htr st.loc (patLoc p) e.TransportMode
    have h2 : 1 ≤ sv.toNat := by omega
    constructor
    · show st.clock + 2 ≤ pe
      omega
    · intro hst
      exfalso
      have hlen := congrArg List.length hst
      simp only [placeVisit, List.length_append, List.length_singleton] at hlen
      omega

theorem routeLoop_completes {travel : TravelFn} {pats : List Patient} {e : Employee}
    {shiftEnd maxV : Nat} (htr : ∀ o d m, 1 ≤ travel o d m) :
    ∀ (fuel : Nat) (st : DayState),
      (shiftEnd - st.clock + 1) / 2 + 2 ≤ fuel →
      (routeLoop travel pats e shiftEnd maxV fuel st).2 = true := by
  intro fuel
  induction fuel with
  | zero => intro st hf; omega
  | succ n ih =>
    intro st hf
    simp only [routeLoop]
    by_cases hc : st.clock < shiftEnd ∧ st.visits < maxV
    case pos =>
      rw [if_pos hc]
      cases hr : routeStep travel pats e shiftEnd st with
      | stop st' => rfl
      | next st' =>
        have hadv := (routeStep_advance htr hr).1
        have hcl := hc.1
        exact ih st' (by omega)
    case neg =>
      rw [if_neg hc]

/-- Claim C10 (amended):  For a travel lookup returning at least 1 minute (as
`get_travel_time`'s clamp guarantees), every continuing iteration of the
router's loop strictly advances the clock by at least 2 minutes — exactly 5
on a conflict retry (the store unchanged), otherwise to the placed visit's
end — a `break` leaves the state unchanged, and the loop reaches its exit
condition within `(shiftLength + 1)/2 + 2` iterations; the clock may pass the
shift end (see the counterexample), upon which the loop guard stops it. -/
theorem C10_loop_terminates (travel : TravelFn) (pats : List Patient)
    (e : Employee) (shiftEnd maxV : Nat) (htr : ∀ o d m, 1 ≤ travel o d m) :
    (∀ st st', routeStep travel pats e shiftEnd st = .next st' →
      st.clock + 2 ≤ st'.clock ∧ (st'.store = st.store → st'.clock = st.clock + 5)) ∧
    (∀ st st', routeStep travel pats e shiftEnd st = .stop st' → st' = st) ∧
    (∀ fuel st, (shiftEnd - st.clock + 1) / 2 + 2 ≤ fuel →
      (routeLoop travel pats e shiftEnd maxV fuel st).2 = true) :=
  ⟨fun _ _ h => routeStep_advance htr h,
   fun _ _ h => routeStep_stop_eq h,
   routeLoop_completes htr⟩

/-- Witness for C10 at a concrete input: the short-shift scenario's loop
reaches its exit condition within the stated fuel. -/
theorem C10_loop_terminates_witness :
    (routeLoop travelAB [scPatA, scPatB] scShortEmp 600 8 62 scShortState).2 = true :=
  (C10_loop_terminates travelAB [scPatA, scPatB] scShortEmp 600 8
    (fun o d m => by unfold travelAB; split <;> omega)).2.2 62 scShortState (by decide)

/-- Claim C10 (counterexample): the same loop's final simulated clock is 10:03,
three minutes past the 10:00 shift end — "the clock never exceeds the shift
end" fails on the second-candidate placement path. -/
theorem C10_clock_passes_shift_end :
    (routeLoop travelAB [scPatA, scPatB] scShortEmp 600 8 62 scShortState).1.clock = 603 ∧
    600 < (routeLoop travelAB [scPatA, scPatB] scShortEmp 600 8 62 scShortState).1.clock := by
  exact ⟨by decide, by decide⟩

/-! ## Claim C3 -/

theorem medicine_in_support_of_infer {p : Patient}
    (hm : inferServiceType p = .medicine) :
    strHas (lowerStr p.RequiredSupport) "medicine" = true := by
  by_cases hs : strHas (lowerStr p.RequiredSupport) "medicine" = true
  · exact hs
  · exfalso
    unfold inferServiceType at hm
    rw [if_neg hs] at hm
    split_ifs at hm

theorem canServe_medicine {e : Employee} {p : Patient}
    (h : employeeCanServe e p = true)
    (hsup : strHas (lowerStr p.RequiredSupport) "medicine" = true) :
    e.Qualification = .nurse := by
  unfold employeeCanServe at h
  rw [Bool.and_eq_true] at h
  have h1 := h.1
  rw [if_pos hsup] at h1
  exact of_decide_eq_true h1

theorem canServe_language {e : Employee} {p : Patient}
    (h : employeeCanServe e p = true)
    (h1 : prefOf p ≠ "") (h2 : prefOf p ≠ "english") :
    strHas (lowerStr e.LanguageSpoken) (prefOf p) = true := by
  unfold employeeCanServe at h
  rw [Bool.and_eq_true] at h
  have hl := h.2
  dsimp only at hl
  unfold prefOf at h1 h2
  rw [if_pos ⟨h1, h2⟩] at hl
  unfold prefOf
  exact hl

theorem eligible_of_canServe {emps : List Employee} {pats : List Patient}
    {e : Employee} {p : Patient}
    (he : e ∈ emps) (hp : p ∈ pats) (hcs : employeeCanServe e p = true)
    {st : Store} {s t : Nat} {sv : Int} {tv : Nat} :
    eligiblePersisted emps pats (mkAssignment st e p s t sv tv) := by
  refine ⟨e, he, p, hp, rfl, rfl, rfl, ?_, ?_⟩
  · intro hmed
    exact canServe_medicine hcs (medicine_in_support_of_infer hmed)
  · intro h1 h2
    exact canServe_language hcs h1 h2

theorem routeStep_eligible {travel : TravelFn} {pats : List Patient}
    {emps : List Employee} {e : Employee} {shiftEnd : Nat} {st st' : DayState}
    {base : Store} (he : e ∈ emps)
    (h : routeStep travel pats e shiftEnd st = .next st')
    (hP : ∀ a ∈ st.store, a ∈ base ∨ eligiblePersisted emps pats a) :
    ∀ a ∈ st'.store, a ∈ base ∨ eligiblePersisted emps pats a := by
  rcases routeStep_next_cases h with rfl |
    ⟨p, tv, sv, ps, pe, rfl, hp, hcs, -, -, -, -, -, -, -⟩
  · exact hP
  · intro a ha
    simp only [placeVisit] at ha
    rcases List.mem_append.mp ha with ha | ha
    · exact hP a ha
    · rcases List.mem_singleton.mp ha with rfl
      exact Or.inr (eligible_of_canServe he hp hcs)

theorem runEmployeeDay_eligible {travel : TravelFn} {pats : List Patient}
    {emps : List Employee} {day : Nat} {c : DayCtx} {e : Employee} {base : Store}
    (he : e ∈ emps)
    (hP : ∀ a ∈ c.store, a ∈ base ∨ eligiblePersisted emps pats a) :
    ∀ a ∈ (runEmployeeDay travel pats day c e).store,
      a ∈ base ∨ eligiblePersisted emps pats a := by
  unfold runEmployeeDay
  rcases hse : shiftOf e with ⟨es, ls⟩
  dsimp only
  by_cases hsh : ls ≤ es
  · rw [if_pos hsh]
    exact hP
  · rw [if_neg hsh]
    exact routeLoop_inv
      (fun st => ∀ a ∈ st.store, a ∈ base ∨ eligiblePersisted emps pats a)
      (fun st st' hr hp => routeStep_eligible he hr hp) _ _ hP

theorem generateDailyRota_eligible {travel : TravelFn} {emps : List Employee}
    {pats : List Patient} {day : Nat} {store base : Store}
    (hP : ∀ a ∈ store, a ∈ base ∨ eligiblePersisted emps pats a) :
    ∀ a ∈ (generateDailyRota travel emps pats day store).1,
      a ∈ base ∨ eligiblePersisted emps pats a := by
  unfold generateDailyRota
  dsimp only
  exact foldl_inv
    (P := fun c : DayCtx => ∀ a ∈ c.store, a ∈ base ∨ eligiblePersisted emps pats a)
    emps (fun e hmem c hc => runEmployeeDay_eligible hmem hc) _ hP

/-- Claim C3 (amended):  Every assignment present after a weekly generation run
is either a pre-existing row or satisfies the creation-time eligibility
constraints: its service type is the one inferred from its patient, a
medicine service implies a nurse, and a non-English normalised language
preference occurs as a substring of the employee's spoken languages.  (The
reassignment optimizer checks neither constraint — see the counterexample.) -/
theorem C3_created_assignments_eligible (travel : TravelFn) (emps : List Employee)
    (pats : List Patient) (startDay : Nat) (base : Store) :
    ∀ a ∈ (generateWeeklyRota travel emps pats startDay base).1,
      a ∈ base ∨ eligiblePersisted emps pats a := by
  have h7 : ∀ (days : List Nat) (acc : Store × Nat),
      (∀ a ∈ acc.1, a ∈ base ∨ eligiblePersisted emps pats a) →
      ∀ a ∈ (days.foldl (fun acc off =>
        let r := generateDailyRota travel emps pats (startDay + off) acc.1
        (r.1, acc.2 + r.2)) acc).1, a ∈ base ∨ eligiblePersisted emps pats a := by
    intro days
    induction days with
    | nil => intro acc h; exact h
    | cons d t ih =>
      intro acc h
      exact ih _ (generateDailyRota_eligible h)
  exact h7 (List.range 7) (base, 0) (fun a ha => Or.inl ha)

/-- Witness for C3 (amended) at a concrete input: the visit created on day 0
of the short-shift scenario is eligibility-checked. -/
theorem C3_created_assignments_eligible_witness :
    ((⟨1, "E", "E", "A", "A", .exercise, 541, 541, 571, 30, 1,
      "Scheduled by core engine"⟩ : Assignment) ∈
        (generateWeeklyRota travelAB [scShortEmp] [scPatA] 0 []).1) ∧
    ((⟨1, "E", "E", "A", "A", .exercise, 541, 541, 571, 30, 1,
      "Scheduled by core engine"⟩ : Assignment) ∈ ([] : Store) ∨
      eligiblePersisted [scShortEmp] [scPatA]
        ⟨1, "E", "E", "A", "A", .exercise, 541, 541, 571, 30, 1,
          "Scheduled by core engine"⟩) :=
  ⟨by decide,
   C3_created_assignments_eligible travelAB [scShortEmp] [scPatA] 0 [] _ (by decide)⟩

/-- Claim C3 (counterexample): reanalysing the persisted medicine assignment
migrates it to employee `"M"`, who is a carer, not a nurse — the eligibility
invariants do not survive reassignment. -/
theorem C3_counterexample :
    (reanalyzeAssignments travelTen [scNurse, scCarer] [scPatMed]
      [scMedRow] [1]).map (fun a => (a.employee_id, a.service_type)) =
        [("M", ServiceType.medicine)] ∧
    scCarer.EmployeeID = "M" ∧ scCarer.Qualification ≠ Qualification.nurse := by
  exact ⟨by decide, by decide, by decide⟩

/-! ## Claim C9 -/

theorem durSum_append (st : Store) (a : Assignment) (x : String) :
    durSum (st ++ [a]) x =
      durSum st x + (if a.patient_id = x then a.duration else 0) := by
  by_cases h : a.patient_id = x
  · simp [durSum, List.filter_append, List.filter_cons, h]
  · simp [durSum, List.filter_append, List.filter_cons, h]

theorem derivePatientDailyDemand_pos (p : Patient) :
    0 < derivePatientDailyDemand p := by
  unfold derivePatientDailyDemand
  dsimp only
  split_ifs with h1 h2
  · have h15 : (15 : Int) ≤ max 15 (p.RequiredHoursOfSupport * 60 / 7) := le_max_left _ _
    omega
  · have h60 : (60 : Int) ≤ max 60
        ((parseServices p.RequiredSupport).map
          (fun s => (defaultServiceDuration s : Int))).sum := le_max_left _ _
    omega
  · omega

theorem initPool_go_not_mem :
    ∀ (pats : List Patient) (f : String → Int) (x : String),
      x ∉ pats.map (fun p => p.PatientID) →
      pats.foldl (fun f p =>
        let daily := derivePatientDailyDemand p
        if 0 < daily then (fun y => if y = p.PatientID then daily else f y) else f) f x
        = f x := by
  intro pats
  induction pats with
  | nil => intro f x _; rfl
  | cons q t ih =>
    intro f x h
    simp only [List.map_cons, List.mem_cons, not_or] at h
    rw [List.foldl_cons]
    dsimp only
    by_cases hd : 0 < derivePatientDailyDemand q
    · rw [if_pos hd, ih _ x h.2]
      exact if_neg h.1
    · rw [if_neg hd]
      exact ih _ x h.2

theorem initPool_go_mem :
    ∀ (pats : List Patient), (pats.map (fun p => p.PatientID)).Nodup →
      ∀ p ∈ pats, ∀ (f : String → Int),
      pats.foldl (fun f p =>
        let daily := derivePatientDailyDemand p
        if 0 < daily then (fun y => if y = p.PatientID then daily else f y) else f) f
          p.PatientID
        = derivePatientDailyDemand p := by
  intro pats
  induction pats with
  | nil => intro _ p hp; cases hp
  | cons q t ih =>
    intro hnd p hp f
    rw [List.map_cons, List.nodup_cons] at hnd
    rw [List.foldl_cons]
    dsimp only
    rcases List.mem_cons.mp hp with rfl | hp'
    · rw [if_pos (derivePatientDailyDemand_pos p)]
      rw [initPool_go_not_mem t _ p.PatientID hnd.1]
      exact if_pos rfl
    · by_cases hd : 0 < derivePatientDailyDemand q
      · rw [if_pos hd]
        exact ih hnd.2 p hp' _
      · rw [if_neg hd]
        exact ih hnd.2 p hp' _

theorem initPool_eq {pats : List Patient}
    (hnd : (pats.map (fun p => p.PatientID)).Nodup) {p : Patient} (hp : p ∈ pats) :
    initPool pats p.PatientID = derivePatientDailyDemand p :=
  initPool_go_mem pats hnd p hp _

theorem initPool_go_nonneg :
    ∀ (pats : List Patient) (f : String → Int), (∀ x, 0 ≤ f x) →
      ∀ x, 0 ≤ pats.foldl (fun f p =>
        let daily := derivePatientDailyDemand p
        if 0 < daily then (fun y => if y = p.PatientID then daily else f y) else f) f x := by
  intro pats
  induction pats with
  | nil => intro f hf x; exact hf x
  | cons q t ih =>
    intro f hf x
    rw [List.foldl_cons]
    dsimp only
    by_cases hd : 0 < derivePatientDailyDemand q
    · rw [if_pos hd]
      refine ih _ ?_ x
      intro y
      by_cases hy : y = q.PatientID
      · rw [if_pos hy]
        omega
      · rw [if_neg hy]
        exact hf y
    · rw [if_neg hd]
      exact ih _ hf x

theorem initPool_nonneg (pats : List Patient) : ∀ x, 0 ≤ initPool pats x :=
  initPool_go_nonneg pats _ (fun _ => le_refl 0)

theorem routeStep_pool {travel : TravelFn} {pats : List Patient} {e : Employee}
    {shiftEnd : Nat} {st st' : DayState} {base : Store} {P0 : String → Int}
    (h : routeStep travel pats e shiftEnd st = .next st')
    (hP : ∀ x, 0 ≤ st.pool x ∧
      st.pool x + durSum st.store x = P0 x + durSum base x) :
    ∀ x, 0 ≤ st'.pool x ∧
      st'.pool x + durSum st'.store x = P0 x + durSum base x := by
  rcases routeStep_next_cases h with rfl |
    ⟨p, tv, sv, ps, pe, rfl, -, -, hpos, hsv1, hsvle, -, -, -, -⟩
  · exact hP
  · intro x
    simp only [placeVisit, durSum_append, mkAssignment]
    by_cases hxp : x = p.PatientID
    · subst hxp
      rw [if_pos rfl, if_pos rfl]
      have hx := hP p.PatientID
      constructor
      · exact le_max_left _ _
      · have hmax : max 0 (st.pool p.PatientID - sv) = st.pool p.PatientID - sv :=
          max_eq_right (by omega)
        rw [hmax]
        omega
    · rw [if_neg hxp, if_neg (fun hh => hxp hh.symm)]
      have hx := hP x
      omega

theorem runEmployeeDay_pool {travel : TravelFn} {pats : List Patient} {day : Nat}
    {c : DayCtx} {e : Employee} {base : Store} {P0 : String → Int}
    (hP : ∀ x, 0 ≤ c.pool x ∧
      c.pool x + durSum c.store x = P0 x + durSum base x) :
    ∀ x, 0 ≤ (runEmployeeDay travel pats day c e).pool x ∧
      (runEmployeeDay travel pats day c e).pool x +
        durSum (runEmployeeDay travel pats day c e).store x =
        P0 x + durSum base x := by
  unfold runEmployeeDay
  rcases hse : shiftOf e with ⟨es, ls⟩
  dsimp only
  by_cases hsh : ls ≤ es
  · rw [if_pos hsh]
    exact hP
  · rw [if_neg hsh]
    exact routeLoop_inv
      (fun st => ∀ x, 0 ≤ st.pool x ∧
        st.pool x + durSum st.store x = P0 x + durSum base x)
      (fun st st' hr hp => routeStep_pool hr hp) _ _ hP

theorem generateDailyRota_pool (travel : TravelFn) (emps : List Employee)
    (pats : List Patient) (day : Nat) (store : Store) :
    ∀ x, durSum (generateDailyRota travel emps pats day store).1 x ≤
      initPool pats x + durSum store x := by
  have hfold := foldl_inv
    (f := runEmployeeDay travel pats day)
    (P := fun c : DayCtx => ∀ x, 0 ≤ c.pool x ∧
      c.pool x + durSum c.store x = initPool pats x + durSum store x)
    emps (fun e _ c hc => runEmployeeDay_pool hc)
    { store := store, pool := initPool pats, created := 0 }
    (fun x => ⟨initPool_nonneg pats x, rfl⟩)
  intro x
  have hx := hfold x
  unfold generateDailyRota
  dsimp only
  omega

/-- Claim C9: For a single scheduled day, the total minutes of visits persisted
for a patient never exceed that day's estimated demand (the sum over the
final store minus the initial store is bounded by
`derivePatientDailyDemand`), and the remaining-demand pool is never negative:
it starts nonnegative and every loop iteration keeps it so. -/
theorem C9_daily_demand_bound (travel : TravelFn) (emps : List Employee)
    (pats : List Patient) (day : Nat) (store : Store)
    (hnd : (pats.map (fun p => p.PatientID)).Nodup) :
    (∀ p ∈ pats,
      durSum (generateDailyRota travel emps pats day store).1 p.PatientID ≤
        derivePatientDailyDemand p + durSum store p.PatientID) ∧
    (∀ x, 0 ≤ initPool pats x) ∧
    (∀ e shiftEnd (st st' : DayState),
      routeStep travel pats e shiftEnd st = .next st' →
      (∀ x, 0 ≤ st.pool x ∧
        st.pool x + durSum st.store x = initPool pats x + durSum store x) →
      ∀ x, 0 ≤ st'.pool x) := by
  refine ⟨?_, initPool_nonneg pats, ?_⟩
  · intro p hp
    have hb := generateDailyRota_pool travel emps pats day store p.PatientID
    rw [initPool_eq hnd hp] at hb
    omega
  · intro e shiftEnd st st' hr hPst x
    exact (routeStep_pool hr hPst x).1

/-- Witness for C9 at a concrete input: the short-shift scenario's day places
30 visit-minutes for patient `"A"`, within its 60-minute demand. -/
theorem C9_daily_demand_bound_witness :
    durSum (generateDailyRota travelAB [scShortEmp] [scPatA] 0 []).1
        scPatA.PatientID ≤
      derivePatientDailyDemand scPatA + durSum [] scPatA.PatientID :=
  (C9_daily_demand_bound travelAB [scShortEmp] [scPatA] 0 [] (by decide)).1
    scPatA (by decide)

/-! ## Claim C6 -/

/-- Claim C6 (counterexample): a same-location lookup does not return 0 — the
final clamp `max(1, min(minutes, 180))` in `get_travel_time` lifts the
heuristic's same-location 0 to 1. -/
theorem C6_counterexample :
    getTravelTime "A" "A" "Car" = 1 ∧ getTravelTime "A" "A" "Car" ≠ 0 := by
  exact ⟨by decide, by decide⟩

/-- Claim C6 (amended):  `get_travel_time` always returns an integer clamped to
`[1, 180]` (and, being total, never raises; without an API client every
lookup degrades to the heuristic estimate).  A same-location lookup returns
the clamped heuristic value — 1 by car, 10 walking, and 1 by bicycle (the
double mode-mapping turns "bicycling" back into "driving") — never 0. -/
theorem C6_travel_time_contract :
    (∀ o d m, 1 ≤ getTravelTime o d m ∧ getTravelTime o d m ≤ 180) ∧
    (∀ o, o ≠ "" →
      getTravelTime o o "Car" = 1 ∧ getTravelTime o o "Walking" = 10 ∧
      getTravelTime o o "Bicycle" = 1) := by
  constructor
  · intro o d m
    unfold getTravelTime
    exact ⟨le_max_left _ _, max_le (by norm_num) (min_le_right _ _)⟩
  · intro o ho
    have h0 : ¬(o = "" ∨ o = "") := by simp [ho]
    refine ⟨?_, ?_, ?_⟩
    · have hm : mapTransportMode "Car" = "driving" := by decide
      have hm2 : mapTransportMode "driving" = "driving" := by decide
      simp [getTravelTime, estimateTravelTime, hm, hm2, h0, ho]
    · have hm : mapTransportMode "Walking" = "walking" := by decide
      have hm2 : mapTransportMode "walking" = "walking" := by decide
      simp [getTravelTime, estimateTravelTime, hm, hm2, h0, ho]
    · have hm : mapTransportMode "Bicycle" = "bicycling" := by decide
      have hm2 : mapTransportMode "bicycling" = "driving" := by decide
      simp [getTravelTime, estimateTravelTime, hm, hm2, h0, ho]

/-- Witness for C6 at concrete inputs. -/
theorem C6_travel_time_contract_witness :
    (1 ≤ getTravelTime "X" "Y" "Car" ∧ getTravelTime "X" "Y" "Car" ≤ 180) ∧
    getTravelTime "A" "A" "Car" = 1 :=
  ⟨C6_travel_time_contract.1 "X" "Y" "Car",
   (C6_travel_time_contract.2 "A" (by decide)).1⟩

/-! ## Claim C7 -/

theorem chooseBest_none {travel : TravelFn} {st : Store} {cands : List Employee}
    {p : Patient} {startT : Nat}
    (h : chooseBestEmployeeForReassignment travel st cands p startT = none) :
    cands = [] := by
  unfold chooseBestEmployeeForReassignment at h
  dsimp only at h
  rcases hs : sortByKey (Prod.fst (β := Employee))
      (cands.map (fun e => (reassignKey travel st p startT e, e))) with _ | ⟨⟨k, e0⟩, tl⟩
  · have := (sortByKey_eq_nil_iff (Prod.fst (β := Employee)) _).mp hs
    exact List.map_eq_nil_iff.mp this
  · rw [hs] at h
    dsimp only at h
    cases h

theorem reassignKey_le_elim {travel : TravelFn} {st : Store} {p : Patient}
    {startT : Nat} {e e' : Employee}
    (h : reassignKey travel st p startT e ≤ reassignKey travel st p startT e') :
    (employeeSameDayAssigned st e'.EmployeeID startT = true →
      employeeSameDayAssigned st e.EmployeeID startT = true) ∧
    (employeeSameDayAssigned st e.EmployeeID startT =
        employeeSameDayAssigned st e'.EmployeeID startT →
      calcTravelMinutes travel e p ≤ calcTravelMinutes travel e' p) := by
  unfold reassignKey at h
  rw [Prod.Lex.le_iff] at h
  dsimp only at h
  cases hE : employeeSameDayAssigned st e.EmployeeID startT <;>
    cases hE' : employeeSameDayAssigned st e'.EmployeeID startT <;>
    rw [hE, hE'] at h
  · refine ⟨fun hx => hx, fun _ => ?_⟩
    rcases h with h | h
    · norm_num at h
    · exact h.2
  · exfalso
    rcases h with h | h
    · norm_num at h
    · norm_num at h
  · refine ⟨fun _ => rfl, fun hx => ?_⟩
    exact absurd hx (by decide)
  · refine ⟨fun _ => rfl, fun _ => ?_⟩
    rcases h with h | h
    · norm_num at h
    · exact h.2

/-- Claim C7:  For each processed assignment id, the reassignment optimizer
picks, from the pool of other employees whose parsed shift window covers the
row's interval and who have no overlapping commitment, an employee that no
pool member beats in the ranking (same-calendar-day presence first, then
travel time to the patient); when that pool is empty it falls back to the
minimum-travel-time employee among all other non-overlapping employees,
ignoring the shift window; when both pools are empty the row is unchanged. -/
theorem C7_reassignment_choice (travel : TravelFn) (emps : List Employee)
    (pats : List Patient) (st : Store) (aid : Nat) (row : Assignment) (p : Patient)
    (hrow : getAssignmentById st aid = some row)
    (hpat : getPatientById pats row.patient_id = some p) :
    (getCandidateEmployees emps st row.start_time row.end_time row.employee_id ≠ [] →
      ∃ e ∈ getCandidateEmployees emps st row.start_time row.end_time row.employee_id,
        reanalyzeOne travel emps pats st aid =
          updateAssignmentEmployee st aid e (calcTravelMinutes travel e p) ∧
        ∀ e' ∈ getCandidateEmployees emps st row.start_time row.end_time row.employee_id,
          (employeeSameDayAssigned st e'.EmployeeID row.start_time = true →
            employeeSameDayAssigned st e.EmployeeID row.start_time = true) ∧
          (employeeSameDayAssigned st e.EmployeeID row.start_time =
              employeeSameDayAssigned st e'.EmployeeID row.start_time →
            calcTravelMinutes travel e p ≤ calcTravelMinutes travel e' p)) ∧
    (getCandidateEmployees emps st row.start_time row.end_time row.employee_id = [] →
      fallbackPool travel emps st row p ≠ [] →
      ∃ x ∈ fallbackPool travel emps st row p,
        reanalyzeOne travel emps pats st aid =
          updateAssignmentEmployee st aid x.2 (calcTravelMinutes travel x.2 p) ∧
        ∀ y ∈ fallbackPool travel emps st row p, x.1 ≤ y.1) ∧
    (getCandidateEmployees emps st row.start_time row.end_time row.employee_id = [] →
      fallbackPool travel emps st row p = [] →
      reanalyzeOne travel emps pats st aid = st) := by
  unfold reanalyzeOne
  rw [hrow]
  dsimp only
  rw [hpat]
  dsimp only
  rcases hcb : chooseBestEmployeeForReassignment travel st
      (getCandidateEmployees emps st row.start_time row.end_time row.employee_id)
      p row.start_time with _ | e
  · have hcands := chooseBest_none hcb
    dsimp only
    rcases hfb : sortByKey (Prod.fst (β := Employee))
        (fallbackPool travel emps st row p) with _ | ⟨⟨tvm, e⟩, tl⟩
    · have hfbnil := (sortByKey_eq_nil_iff (Prod.fst (β := Employee)) _).mp hfb
      exact ⟨fun hne => absurd hcands hne, fun _ _ => absurd hfbnil (by assumption),
        fun _ _ => rfl⟩
    · have hmem : (tvm, e) ∈ fallbackPool travel emps st row p := by
        rw [← mem_sortByKey (Prod.fst (β := Employee)), hfb]
        exact List.mem_cons_self _ _
      refine ⟨fun hne => absurd hcands hne, fun _ _ => ?_, fun _ hfbe => ?_⟩
      · refine ⟨(tvm, e), hmem, rfl, ?_⟩
        intro y hy
        have := sortByKey_head_le (Prod.fst (β := Employee)) _ _ _ hfb y
          (by exact hy)
        simpa using this
      · rw [hfbe] at hmem
        cases hmem
  · obtain ⟨hmem, hmin⟩ := chooseBest_spec hcb
    refine ⟨fun _ => ⟨e, hmem, rfl, ?_⟩,
      fun hc _ => absurd (hc ▸ hmem) (List.not_mem_nil e),
      fun hc _ => absurd (hc ▸ hmem) (List.not_mem_nil e)⟩
    intro e' he'
    exact reassignKey_le_elim (hmin e' he')

/-- Witness for C7 at a concrete input: reanalysing the medicine row picks
the only pool employee `scCarer` and rewrites the row's employee fields. -/
theorem C7_reassignment_choice_witness :
    ∃ e ∈ getCandidateEmployees [scNurse, scCarer] [scMedRow]
        scMedRow.start_time scMedRow.end_time scMedRow.employee_id,
      reanalyzeOne travelTen [scNurse, scCarer] [scPatMed] [scMedRow] 1 =
        updateAssignmentEmployee [scMedRow] 1 e
          (calcTravelMinutes travelTen e scPatMed) ∧
      ∀ e' ∈ getCandidateEmployees [scNurse, scCarer] [scMedRow]
          scMedRow.start_time scMedRow.end_time scMedRow.employee_id,
        (employeeSameDayAssigned [scMedRow] e'.EmployeeID scMedRow.start_time = true →
          employeeSameDayAssigned [scMedRow] e.EmployeeID scMedRow.start_time = true) ∧
        (employeeSameDayAssigned [scMedRow] e.EmployeeID scMedRow.start_time =
            employeeSameDayAssigned [scMedRow] e'.EmployeeID scMedRow.start_time →
          calcTravelMinutes travelTen e scPatMed ≤
            calcTravelMinutes travelTen e' scPatMed) :=
  (C7_reassignment_choice travelTen [scNurse, scCarer] [scPatMed] [scMedRow] 1
    scMedRow scPatMed (by decide) (by decide)).1 (by decide)

/-! ## Claim C8 -/

/-- Claim C8:  The derived daily demand equals the spec's formula:
`max(15, floor(weekly_hours*60/7))` for a positive weekly-hours figure,
otherwise the sum of the per-service defaults (medicine=30, personal-care=45,
exercise=30, companionship=60) over the listed categories floored at 60, and
60 when no categories are listed. -/
theorem C8_daily_demand_formula (p : Patient) :
    derivePatientDailyDemand p = demandSpec p := by
  unfold derivePatientDailyDemand demandSpec
  dsimp only
  by_cases h1 : 0 < p.RequiredHoursOfSupport
  · rw [if_pos h1, if_pos h1]
  · rw [if_neg h1, if_neg h1]
    by_cases h2 : parseServices p.RequiredSupport = []
    · rw [if_neg (not_not_intro h2), if_pos h2]
    · rw [if_pos h2, if_neg h2]
      have hmap : (parseServices p.RequiredSupport).map
            (fun s => (defaultServiceDuration s : Int)) =
          (parseServices p.RequiredSupport).map demandSpecDefault :=
        List.map_congr_left (fun s _ => by cases s <;> rfl)
      rw [hmap]

end Rota
